import Mathlib

/-!
# ebuse: the EBS snapshot backend (`snapshot_backend.go`)

A shallow embedding of `SnapshotBackend` and its operations.

* Go `int64`/`int` values are integers of `Int`; every arithmetic operation of
  the source that can leave the 64-bit range is wrapped with `wrap64`, and
  `uint64` arithmetic is taken modulo `2^64`.
* A Go panic is an explicit outcome (`Outcome.panics`).
* The ARC cache, the EBS client and their internal state are external
  libraries: they are a parameter (`Collaborators ω`), threaded through the
  operations as an explicit world state `ω`.
* The `for` loop of `ReadAt` need not terminate, so it is run with fuel:
  `none` means that the loop is still running when the fuel is used up.
-/

namespace Ebuse

/-! ## Machine integers -/

/-- Two's complement wrap-around of an integer into the `int64` range. -/
def wrap64 (x : Int) : Int := (x + 2 ^ 63) % 2 ^ 64 - 2 ^ 63

/-- Conversion `uint64(x)` of an `int64` value. -/
def toUint64 (x : Int) : Nat := (x % 2 ^ 64).toNat

/-- Multiplication of two `uint64` values. -/
def mulU64 (a b : Nat) : Nat := (a * b) % 2 ^ 64

/-! ## Values -/

/-- A byte of a `[]byte`. -/
abbrev Byte := Fin 256

/-- A Go `error` value that is not nil. -/
inductive GoError where
  | errno (n : Nat)
  | other (msg : String)
deriving DecidableEq

/-- The error `syscall.ENOSYS` (errno 38 on Linux). -/
def ENOSYS : GoError := GoError.errno 38

/-- Why a Go run panicked. -/
inductive PanicKind where
  /-- a single-value type assertion `x.(T)` on a nil interface value -/
  | interfaceConversion
  /-- a slice expression `s[low:]` with `low > len(s)` -/
  | sliceBounds
  /-- an integer division by zero -/
  | divideByZero
  /-- `panic(err)` called by the code itself -/
  | explicit
deriving DecidableEq

/-- How a Go call ends: it returns a value or it panics. -/
inductive Outcome (α : Type) where
  | ret (a : α)
  | panics (k : PanicKind)
deriving DecidableEq

/-- A `time.Time` without monotonic clock reading: the seconds since
January 1, year 1 (an `int64`) and the nanoseconds within the second. -/
structure Time where
  sec : Int
  nsec : Nat
  sec_ge : -(2 ^ 63) ≤ sec
  sec_lt : sec < 2 ^ 63
  nsec_lt : nsec < 1000000000
deriving DecidableEq

/-- The method `Time.Before`. -/
def Time.Before (t u : Time) : Bool :=
  decide (t.sec < u.sec) || (decide (t.sec = u.sec) && decide (t.nsec < u.nsec))

/-- The value `time.Unix(1<<63-62135596801, 999999999)`: the seconds are
stored offset by `unixToInternal = 62135596800`. -/
def maxTime : Time :=
  { sec := (2 ^ 63 - 62135596801) + 62135596800
    nsec := 999999999
    sec_ge := by decide
    sec_lt := by decide
    nsec_lt := by decide }

/-! ## The backend -/

/-- The struct `snapshotMetadata`. -/
structure snapshotMetadata where
  volumeSize : Int
  blockSize : Int
deriving DecidableEq

/-- The struct `blockData`; the map `blockTokens` is its lookup function
(`none` is the nil `*string` that a missing key yields). -/
structure blockData where
  expiration : Time
  blockTokens : Int → Option String

/-- The fields of `SnapshotBackend` that are plain data. The cache and the
client live in the world state of `Collaborators`. -/
structure SnapshotBackend where
  snapshot : String
  metadata : snapshotMetadata
  blockData : blockData

/-- The external libraries used by the read path, over a world state `ω`:
the ARC cache (`Get`, `Add`) and the EBS client. `getSnapshotBlock` stands for
`GetSnapshotBlockWithContext`: its outer result is the error of the call, its
inner result that of `ioutil.ReadAll` on the returned stream. -/
structure Collaborators (ω : Type) where
  cacheGet : ω → Int → Option (List Byte) × ω
  cacheAdd : ω → Int → List Byte → ω
  getSnapshotBlock : ω → String → Int → Option String →
    Except GoError (Except GoError (List Byte)) × ω

/-! ## `readBlock` -/

/-- UTF-8 encoding of a rune, as `runtime.encoderune`: surrogates and values
above U+10FFFF are encoded as U+FFFD. -/
def encoderune (r : Int) : List Nat :=
  if 0 ≤ r ∧ r ≤ 0x7F then
    [r.toNat]
  else if 0 ≤ r ∧ r ≤ 0x7FF then
    [0xC0 ||| (r.toNat >>> 6), 0x80 ||| (r.toNat &&& 0x3F)]
  else if r < 0 ∨ r > 0x10FFFF ∨ (0xD800 ≤ r ∧ r ≤ 0xDFFF) then
    [0xEF, 0xBF, 0xBD]
  else if r ≤ 0xFFFF then
    [0xE0 ||| (r.toNat >>> 12), 0x80 ||| ((r.toNat >>> 6) &&& 0x3F),
      0x80 ||| (r.toNat &&& 0x3F)]
  else
    [0xF0 ||| (r.toNat >>> 18), 0x80 ||| ((r.toNat >>> 12) &&& 0x3F),
      0x80 ||| ((r.toNat >>> 6) &&& 0x3F), 0x80 ||| (r.toNat &&& 0x3F)]

/-- The conversion `string(block)` of an `int64` (the bytes of the string), as
`runtime.intstring`: a value that does not fit a rune becomes U+FFFD. -/
def intstring (v : Int) : List Nat :=
  if -(2 ^ 31) ≤ v ∧ v < 2 ^ 31 then encoderune v else encoderune 0xFFFD

/-- The call `singleflight.Group.Do(key, fn)` made while no call for `key` is
in flight: `fn` is run and its result returned. -/
def singleflightDo {α : Type} (_key : List Nat) (fn : α) : α := fn

/-- The closure passed to `Do` in `readBlock`. It returns an
`(interface{}, error)` pair; `none` in the first place is the nil interface. -/
def readBlockFn {ω : Type} (C : Collaborators ω) (sd : SnapshotBackend) (w : ω) (block : Int) :
    (Option (List Byte) × Option GoError) × ω :=
  match C.cacheGet w block with
  | (some v, w1) => ((some v, none), w1)
  | (none, w1) =>
    match C.getSnapshotBlock w1 sd.snapshot block (sd.blockData.blockTokens block) with
    | (Except.error err, w2) => ((none, some err), w2)
    | (Except.ok out, w2) =>
      match out with
      | Except.error err => ((none, some err), w2)
      | Except.ok data => ((some data, none), C.cacheAdd w2 block data)

/-- The method `readBlock`. The final `data.([]byte)` panics when `data` is the
nil interface. -/
def readBlock {ω : Type} (C : Collaborators ω) (sd : SnapshotBackend) (w : ω) (block : Int) :
    Outcome (List Byte × Option GoError) × ω :=
  match singleflightDo (intstring block) (readBlockFn C sd w block) with
  | ((none, _), w1) => (Outcome.panics PanicKind.interfaceConversion, w1)
  | ((some data, err), w1) => (Outcome.ret (data, err), w1)

/-! ## `ReadAt` -/

/-- The variables of the loop of `ReadAt`, the world state, and the block
indices passed to `readBlock` so far (in call order). -/
structure LoopState (ω : Type) where
  w : ω
  b : List Byte
  bOff : Nat
  offset : Int
  calls : List Int

/-- The result of one iteration of the loop of `ReadAt`: the method returns
or panics (`exit`), or the loop goes on (`next`). -/
inductive Step (ω : Type) where
  | exit (out : Outcome (Int × Option GoError)) (s : LoopState ω)
  | next (s : LoopState ω)

/-- The builtin `copy(b[bOff:], data)`: the new contents of `b`. -/
def copyAt (b : List Byte) (bOff : Nat) (data : List Byte) : List Byte :=
  b.take bOff ++ data.take (b.length - bOff) ++ b.drop (bOff + min (b.length - bOff) data.length)

/-- The body of the loop of `ReadAt`. -/
def ReadAtBody {ω : Type} (C : Collaborators ω) (sd : SnapshotBackend) (s : LoopState ω) :
    Step ω :=
  if sd.metadata.blockSize = 0 then
    Step.exit (Outcome.panics PanicKind.divideByZero) s
  else
    let block := wrap64 (Int.tdiv s.offset sd.metadata.blockSize)
    match readBlock C sd s.w block with
    | (Outcome.panics k, w1) =>
      Step.exit (Outcome.panics k) { s with w := w1, calls := s.calls ++ [block] }
    | (Outcome.ret (_, some err), w1) =>
      Step.exit (Outcome.ret (s.bOff, some err)) { s with w := w1, calls := s.calls ++ [block] }
    | (Outcome.ret (data, none), w1) =>
      let s1 : LoopState ω := { s with w := w1, calls := s.calls ++ [block] }
      let skip := wrap64 (s.offset - wrap64 (block * sd.metadata.blockSize))
      let sliced : Outcome (List Byte) :=
        if skip > 0 then
          if skip > data.length then Outcome.panics PanicKind.sliceBounds
          else Outcome.ret (data.drop skip.toNat)
        else Outcome.ret data
      match sliced with
      | Outcome.panics k => Step.exit (Outcome.panics k) s1
      | Outcome.ret data1 =>
        if s.bOff > s.b.length then
          Step.exit (Outcome.panics PanicKind.sliceBounds) s1
        else
          let n := min (s.b.length - s.bOff) data1.length
          Step.next { s1 with
            b := copyAt s.b s.bOff data1
            bOff := s.bOff + n
            offset := wrap64 (s.offset + n) }

/-- The loop `for offset < end` of `ReadAt`, run for at most `fuel`
iterations. -/
def ReadAtLoop {ω : Type} (C : Collaborators ω) (sd : SnapshotBackend) (start end_ : Int) :
    Nat → LoopState ω → Option (Outcome (Int × Option GoError) × LoopState ω)
  | fuel, s =>
    if s.offset < end_ then
      match fuel with
      | 0 => none
      | fuel + 1 =>
        match ReadAtBody C sd s with
        | Step.exit out s1 => some (out, s1)
        | Step.next s1 => ReadAtLoop C sd start end_ fuel s1
    else
      some (Outcome.ret (wrap64 (s.offset - start), none), s)

/-- The method `ReadAt(ctx, b, offset)`. -/
def ReadAt {ω : Type} (C : Collaborators ω) (sd : SnapshotBackend) (fuel : Nat) (w : ω)
    (b : List Byte) (offset : Int) : Option (Outcome (Int × Option GoError) × LoopState ω) :=
  ReadAtLoop C sd offset (wrap64 (offset + b.length)) fuel
    { w := w, b := b, bOff := 0, offset := offset, calls := [] }

/-! ## The operations that are not supported, and `Geometry` -/

/-- The method `WriteAt(ctx, b, offset, fua)`: the result, the backend and the
world after the call. -/
def WriteAt {ω : Type} (sd : SnapshotBackend) (w : ω) (_b : List Byte) (_offset : Int)
    (_fua : Bool) : (Int × Option GoError) × SnapshotBackend × ω :=
  ((0, some ENOSYS), sd, w)

/-- The method `TrimAt(ctx, length, offset)`. -/
def TrimAt {ω : Type} (sd : SnapshotBackend) (w : ω) (_length : Int) (_offset : Int) :
    (Int × Option GoError) × SnapshotBackend × ω :=
  ((0, some ENOSYS), sd, w)

/-- The method `Flush(ctx)`. -/
def Flush {ω : Type} (sd : SnapshotBackend) (w : ω) : Option GoError × SnapshotBackend × ω :=
  (some ENOSYS, sd, w)

/-- The method `Geometry(ctx)`: four `uint64` values and an error. -/
def Geometry (sd : SnapshotBackend) : Nat × Nat × Nat × Nat × Option GoError :=
  (mulU64 (mulU64 (mulU64 (toUint64 sd.metadata.volumeSize) 1024) 1024) 1024,
    1,
    toUint64 sd.metadata.blockSize,
    toUint64 sd.metadata.blockSize,
    none)

/-! ## `fetchMetadata` and the refresh loop -/

/-- An entry of `ListSnapshotBlocksOutput.Blocks`. -/
structure Block where
  BlockIndex : Int
  BlockToken : Option String
deriving DecidableEq

/-- A page of the listing, as handed to the page callback. The fields that the
callback dereferences (`VolumeSize`, `BlockSize`, `ExpiryTime`, `BlockIndex`)
are taken to be set. -/
structure ListSnapshotBlocksOutput where
  VolumeSize : Int
  BlockSize : Int
  ExpiryTime : Time
  Blocks : List Block
deriving DecidableEq

/-- The local variables of `fetchMetadata` that the page callback updates. -/
structure FetchVars where
  expiration : Time
  volumeSize : Int
  blockSize : Int
  blockTokens : Int → Option String

/-- The assignment `blockTokens[k] = v` on a map. -/
def mapSet (m : Int → Option String) (k : Int) (v : Option String) : Int → Option String :=
  fun i => if i = k then v else m i

/-- The page callback of `fetchMetadata`. -/
def fetchPage (v : FetchVars) (listOutput : ListSnapshotBlocksOutput) : FetchVars :=
  { volumeSize := listOutput.VolumeSize
    blockSize := listOutput.BlockSize
    expiration :=
      if listOutput.ExpiryTime.Before v.expiration then listOutput.ExpiryTime else v.expiration
    blockTokens :=
      listOutput.Blocks.foldl (fun m b => mapSet m b.BlockIndex b.BlockToken) v.blockTokens }

/-- The function `fetchMetadata`, given what `ListSnapshotBlocksPagesWithContext`
does: the pages it hands to the callback, in order, and the error it returns. -/
def fetchMetadata (pages : List ListSnapshotBlocksOutput) (err : Option GoError) :
    Except GoError (snapshotMetadata × blockData) :=
  let v := pages.foldl fetchPage
    { expiration := maxTime, volumeSize := 0, blockSize := 0, blockTokens := fun _ => none }
  match err with
  | some e => Except.error e
  | none =>
    Except.ok
      ({ volumeSize := v.volumeSize, blockSize := v.blockSize },
        { expiration := v.expiration, blockTokens := v.blockTokens })

/-- The part of an iteration of `refreshLoop` after the call of
`fetchMetadata`: panic on an error or on changed sizes, else swap in the new
`blockData`. -/
def refreshStep (sd : SnapshotBackend) (fetched : Except GoError (snapshotMetadata × blockData)) :
    Outcome SnapshotBackend :=
  match fetched with
  | Except.error _ => Outcome.panics PanicKind.explicit
  | Except.ok (metadata, bd) =>
    if sd.metadata.blockSize ≠ metadata.blockSize ∨
        sd.metadata.volumeSize ≠ metadata.volumeSize then
      Outcome.panics PanicKind.explicit
    else
      Outcome.ret { sd with blockData := bd }

/-- Which case of the `select` of `refreshLoop` fires; for the timer, what the
listing then yields. -/
inductive Wake where
  | done
  | exit
  | timer (pages : List ListSnapshotBlocksOutput) (err : Option GoError)

/-- One iteration of `refreshLoop`: `ret none` when the loop returns,
`ret (some sd1)` when it goes on with the backend `sd1`. -/
def refreshCycle (sd : SnapshotBackend) : Wake → Outcome (Option SnapshotBackend)
  | Wake.done => Outcome.ret none
  | Wake.exit => Outcome.ret none
  | Wake.timer pages err =>
    match refreshStep sd (fetchMetadata pages err) with
    | Outcome.panics k => Outcome.panics k
    | Outcome.ret sd1 => Outcome.ret (some sd1)

/-- The backend states that `refreshLoop` reaches from `init` by iterations
that do not panic. -/
inductive Reachable (init : SnapshotBackend) : SnapshotBackend → Prop where
  | start : Reachable init init
  | cycle (sd sd1 : SnapshotBackend) (wake : Wake) :
      Reachable init sd → refreshCycle sd wake = Outcome.ret (some sd1) → Reachable init sd1

/-! ## Auxiliary definitions of the statements and proofs -/

/-- The instant of a `Time` in nanoseconds. -/
def Time.nanos (t : Time) : Int := t.sec * 1000000000 + t.nsec

/-- The expiration computed by `fetchMetadata` for a listing without error. -/
def fetchedExpiration (pages : List ListSnapshotBlocksOutput) : Time :=
  (pages.foldl fetchPage
    { expiration := maxTime, volumeSize := 0, blockSize := 0,
      blockTokens := fun _ => none }).expiration

/-- The loop state after an iteration of `ReadAt` at a position `s.offset ≥ 0`
in which `readBlock` returned `data` and the world `w1`. -/
def stepState {ω : Type} (bs : Int) (s : LoopState ω) (data : List Byte) (w1 : ω) :
    LoopState ω :=
  { w := w1
    b := copyAt s.b s.bOff (data.drop (s.offset % bs).toNat)
    bOff := s.bOff + min (s.b.length - s.bOff) (data.length - (s.offset % bs).toNat)
    offset := s.offset +
      ((min (s.b.length - s.bOff) (data.length - (s.offset % bs).toNat) : Nat) : Int)
    calls := s.calls ++ [s.offset / bs] }

/-- The byte at the position `pos` of the device whose block `k` holds `content k`. -/
def byteAt (content : Int → List Byte) (bs : Int) (pos : Int) : Option Byte :=
  (content (pos / bs))[(pos % bs).toNat]?

/-- The `n` consecutive integers from `lo` on. -/
def blockSeq (lo : Int) (n : Nat) : List Int := (List.range n).map (fun (k : Nat) => lo + (k : Int))

/-- The indices of the blocks that meet the positions from `off` up to, and
without, `end_`, in increasing order. -/
def blocksFrom (bs off end_ : Int) : List Int :=
  if off < end_ then blockSeq (off / bs) ((end_ - 1) / bs - off / bs + 1).toNat else []

/-! ## Sample inputs -/

/-- A world without cache whose remote serves `bs` bytes for every block (all
equal to the block index modulo 256), except for the blocks in `bad`, whose
fetch fails. -/
def sampleRemote (bs : Nat) (bad : List Int) : Collaborators Unit where
  cacheGet w _ := (none, w)
  cacheAdd w _ _ := w
  getSnapshotBlock w _ block _ :=
    (if block ∈ bad then Except.error (GoError.other "RequestTimeout")
      else Except.ok (Except.ok (List.replicate bs (Fin.ofNat block.toNat))), w)

/-- A world with a cache that never evicts (the list of the entries added,
latest first) whose remote serves `bs` bytes for every block, all equal to the
block index modulo 256. -/
def cachingRemote (bs : Nat) : Collaborators (List (Int × List Byte)) where
  cacheGet w block := (w.lookup block, w)
  cacheAdd w block data := (block, data) :: w
  getSnapshotBlock w _ block _ :=
    (Except.ok (Except.ok (List.replicate bs (Fin.ofNat block.toNat))), w)

/-- Every entry of the cache holds the bytes that the remote of
`cachingRemote bs` serves for its block. -/
def cacheSound (bs : Nat) (w : List (Int × List Byte)) : Prop :=
  ∀ (k : Int) (d : List Byte), w.lookup k = some d → d = List.replicate bs (Fin.ofNat k.toNat)

/-- A backend for a snapshot of `volumeSize` GiB with blocks of `blockSize` bytes. -/
def sampleBackend (volumeSize blockSize : Int) : SnapshotBackend :=
  { snapshot := "snap-12345678"
    metadata := { volumeSize := volumeSize, blockSize := blockSize }
    blockData := { expiration := maxTime, blockTokens := fun _ => none } }

/-- A time given by its seconds (below 1000) and nanoseconds (below 1000). -/
def sampleTime (sec nsec : Fin 1000) : Time :=
  { sec := sec.val
    nsec := nsec.val
    sec_ge := by omega
    sec_lt := by omega
    nsec_lt := by omega }

/-- A listing page without blocks that expires at `sampleTime sec 0`. -/
def samplePage (sec : Fin 1000) : ListSnapshotBlocksOutput :=
  { VolumeSize := 8, BlockSize := 524288, ExpiryTime := sampleTime sec 0, Blocks := [] }

/-! ## Machine integers: lemmas -/

theorem wrap64_eq (x : Int) (h1 : -(2 ^ 63) ≤ x) (h2 : x < 2 ^ 63) : wrap64 x = x := by
  unfold wrap64
  omega

/-! ## `Geometry` -/

/-- C3, the claim as stated fails: for a snapshot of 1 GiB with blocks of
524288 bytes `Geometry` reports the minimum block size 1, not 524288. -/
theorem Geometry_minimum_counterexample :
    Geometry (sampleBackend 1 524288) = (2 ^ 30, 1, 524288, 524288, none) ∧
    Geometry (sampleBackend 1 524288) ≠
      (((1 : Int) * 2 ^ 30).toNat, (524288 : Int).toNat, (524288 : Int).toNat,
        (524288 : Int).toNat, none) := by
  decide

/-- C3, amended: for `0 ≤ volumeSize < 2^34` and a non-negative `int64`
`blockSize`, `Geometry` returns `(volumeSize * 2^30, 1, blockSize, blockSize, nil)`:
the size is `volumeSize` GiB, the minimum block size is 1, the preferred and the
maximum block size are `blockSize`. -/
theorem Geometry_spec (sd : SnapshotBackend)
    (hv0 : 0 ≤ sd.metadata.volumeSize) (hv1 : sd.metadata.volumeSize < 2 ^ 34)
    (hb0 : 0 ≤ sd.metadata.blockSize) (hb1 : sd.metadata.blockSize < 2 ^ 63) :
    Geometry sd =
      ((sd.metadata.volumeSize * 2 ^ 30).toNat, 1, sd.metadata.blockSize.toNat,
        sd.metadata.blockSize.toNat, none) := by
  unfold Geometry mulU64 toUint64
  have e1 : (sd.metadata.volumeSize % 2 ^ 64).toNat = sd.metadata.volumeSize.toNat := by
    congr 1
    omega
  have e2 : (sd.metadata.blockSize % 2 ^ 64).toNat = sd.metadata.blockSize.toNat := by
    congr 1
    omega
  have e3 : (sd.metadata.volumeSize * 2 ^ 30).toNat = sd.metadata.volumeSize.toNat * 2 ^ 30 := by
    omega
  rw [e1, e2, e3]
  have e4 : sd.metadata.volumeSize.toNat < 2 ^ 34 := by omega
  have e5 : sd.metadata.volumeSize.toNat * 1024 % 2 ^ 64 * 1024 % 2 ^ 64 * 1024 % 2 ^ 64 =
      sd.metadata.volumeSize.toNat * 2 ^ 30 := by
    omega
  rw [e5]

/-- Witness of C3 amended: a snapshot of 8 GiB with blocks of 524288 bytes. -/
theorem Geometry_spec_witness :
    Geometry (sampleBackend 8 524288) = (8 * 2 ^ 30, 1, 524288, 524288, none) :=
  Geometry_spec (sampleBackend 8 524288) (by decide) (by decide) (by decide) (by decide)

/-! ## The key of the in-flight fetch -/

/-- C4, the code at a failing input: the block indices 55296 and 55297 (the
surrogate code points U+D800 and U+D801) are different, and `readBlock`
computes the same key `"\uFFFD"` for both. -/
theorem intstring_collision :
    (55296 : Int) ≠ 55297 ∧ intstring 55296 = [0xEF, 0xBF, 0xBD] ∧
      intstring 55297 = [0xEF, 0xBF, 0xBD] ∧ intstring 55296 = intstring 55297 := by
  decide

/-! ## The operations that are not supported -/

/-- C7: for every backend, world state and arguments, `WriteAt` and `TrimAt`
return `(0, ENOSYS)` and `Flush` returns `ENOSYS`, and the backend and the
world (cache, remote service) after the call are those before it. -/
theorem unsupported_operations {ω : Type} (sd : SnapshotBackend) (w : ω) (b : List Byte)
    (length offset : Int) (fua : Bool) :
    WriteAt sd w b offset fua = ((0, some ENOSYS), sd, w) ∧
    TrimAt sd w length offset = ((0, some ENOSYS), sd, w) ∧
    Flush sd w = (some ENOSYS, sd, w) :=
  ⟨rfl, rfl, rfl⟩

/-! ## `fetchMetadata`: the expiration -/

theorem Time.Before_iff (t u : Time) : t.Before u = true ↔ t.nanos < u.nanos := by
  have ht := t.nsec_lt
  have hu := u.nsec_lt
  unfold Time.Before Time.nanos
  simp only [Bool.or_eq_true, Bool.and_eq_true, decide_eq_true_eq]
  omega

theorem Time.nanos_inj (t u : Time) (h : t.nanos = u.nanos) : t = u := by
  have ht := t.nsec_lt
  have hu := u.nsec_lt
  unfold Time.nanos at h
  cases t
  cases u
  simp only [Time.mk.injEq]
  simp only at h ht hu
  omega

theorem Time.nanos_le_max (t : Time) : t.nanos ≤ maxTime.nanos := by
  have h1 := t.nsec_lt
  have h2 := t.sec_lt
  unfold Time.nanos maxTime
  simp only
  omega

theorem fetchPage_expiration_nanos (v : FetchVars) (p : ListSnapshotBlocksOutput) :
    (fetchPage v p).expiration.nanos = min p.ExpiryTime.nanos v.expiration.nanos := by
  unfold fetchPage
  simp only
  by_cases h : p.ExpiryTime.Before v.expiration = true
  · rw [if_pos h]
    have := (Time.Before_iff _ _).1 h
    omega
  · rw [if_neg h]
    have : ¬ p.ExpiryTime.nanos < v.expiration.nanos := fun hlt => h ((Time.Before_iff _ _).2 hlt)
    omega

theorem fetchPage_expiration_mem (v : FetchVars) (p : ListSnapshotBlocksOutput) :
    (fetchPage v p).expiration = p.ExpiryTime ∨ (fetchPage v p).expiration = v.expiration := by
  unfold fetchPage
  simp only
  by_cases h : p.ExpiryTime.Before v.expiration = true
  · left
    rw [if_pos h]
  · right
    rw [if_neg h]

theorem foldl_fetchPage_le (ps : List ListSnapshotBlocksOutput) :
    ∀ v : FetchVars, (ps.foldl fetchPage v).expiration.nanos ≤ v.expiration.nanos ∧
      ∀ p ∈ ps, (ps.foldl fetchPage v).expiration.nanos ≤ p.ExpiryTime.nanos := by
  induction ps with
  | nil =>
    intro v
    simp
  | cons q qs ih =>
    intro v
    have h := ih (fetchPage v q)
    have hq := fetchPage_expiration_nanos v q
    simp only [List.foldl_cons, List.mem_cons]
    refine ⟨by omega, ?_⟩
    intro p hp
    rcases hp with rfl | hp
    · omega
    · exact h.2 p hp

theorem foldl_fetchPage_mem (ps : List ListSnapshotBlocksOutput) :
    ∀ v : FetchVars, (ps.foldl fetchPage v).expiration = v.expiration ∨
      ∃ p ∈ ps, (ps.foldl fetchPage v).expiration = p.ExpiryTime := by
  induction ps with
  | nil =>
    intro v
    simp
  | cons q qs ih =>
    intro v
    simp only [List.foldl_cons, List.mem_cons]
    rcases ih (fetchPage v q) with h | ⟨p, hp, h⟩
    · rcases fetchPage_expiration_mem v q with h1 | h1
      · right
        exact ⟨q, Or.inl rfl, h.trans h1⟩
      · left
        exact h.trans h1
    · right
      exact ⟨p, Or.inr hp, h⟩

theorem fetchMetadata_ok (pages : List ListSnapshotBlocksOutput) :
    ∃ md bd, fetchMetadata pages none = Except.ok (md, bd) ∧
      bd.expiration = fetchedExpiration pages :=
  ⟨_, _, rfl, rfl⟩

theorem fetchedExpiration_le (pages : List ListSnapshotBlocksOutput) :
    ∀ p ∈ pages, (fetchedExpiration pages).nanos ≤ p.ExpiryTime.nanos :=
  (foldl_fetchPage_le pages _).2

theorem fetchedExpiration_mem (pages : List ListSnapshotBlocksOutput) (hne : pages ≠ []) :
    ∃ p ∈ pages, fetchedExpiration pages = p.ExpiryTime := by
  rcases foldl_fetchPage_mem pages
      { expiration := maxTime, volumeSize := 0, blockSize := 0,
        blockTokens := fun _ => none } with h | h
  · obtain ⟨q, qs, rfl⟩ := List.exists_cons_of_ne_nil hne
    refine ⟨q, List.mem_cons_self _ _, ?_⟩
    have h1 := fetchedExpiration_le (q :: qs) q (List.mem_cons_self _ _)
    have h2 := Time.nanos_le_max q.ExpiryTime
    have h3 : (fetchedExpiration (q :: qs)).nanos = maxTime.nanos := by
      unfold fetchedExpiration
      rw [h]
    exact Time.nanos_inj _ _ (by omega)
  · exact h

/-- C6: for every non-empty sequence of pages handed to the page callback (and
no error of the listing), `fetchMetadata` returns metadata whose expiration is
the `ExpiryTime` of one of the pages and is not after the `ExpiryTime` of any
page, that is the earliest one; every reordering of the pages gives the same
expiration. -/
theorem fetchMetadata_expiration_min (pages : List ListSnapshotBlocksOutput)
    (hne : pages ≠ []) :
    ∃ md bd, fetchMetadata pages none = Except.ok (md, bd) ∧
      (∃ p ∈ pages, bd.expiration = p.ExpiryTime) ∧
      (∀ p ∈ pages, p.ExpiryTime.Before bd.expiration = false) ∧
      (∀ pages1 md1 bd1, pages1.Perm pages →
        fetchMetadata pages1 none = Except.ok (md1, bd1) → bd1.expiration = bd.expiration) := by
  obtain ⟨md, bd, hf, he⟩ := fetchMetadata_ok pages
  refine ⟨md, bd, hf, ?_, ?_, ?_⟩
  · rw [he]
    exact fetchedExpiration_mem pages hne
  · intro p hp
    rw [he]
    have h := fetchedExpiration_le pages p hp
    cases hb : p.ExpiryTime.Before (fetchedExpiration pages) with
    | false => rfl
    | true =>
      have := (Time.Before_iff _ _).1 hb
      omega
  · intro pages1 md1 bd1 hperm hf1
    obtain ⟨md2, bd2, hf2, he2⟩ := fetchMetadata_ok pages1
    rw [hf2] at hf1
    have hbd : bd2 = bd1 := by
      injection hf1 with h
      exact (Prod.mk.inj h).2
    rw [← hbd, he2, he]
    have hne1 : pages1 ≠ [] := by
      intro h0
      rw [h0] at hperm
      exact hne (List.Perm.eq_nil (List.Perm.symm hperm))
    obtain ⟨p, hp, hpe⟩ := fetchedExpiration_mem pages hne
    obtain ⟨q, hq, hqe⟩ := fetchedExpiration_mem pages1 hne1
    have h1 := fetchedExpiration_le pages q ((List.Perm.mem_iff hperm).1 hq)
    have h2 := fetchedExpiration_le pages1 p ((List.Perm.mem_iff hperm).2 hp)
    apply Time.nanos_inj
    rw [← hqe] at h1
    rw [← hpe] at h2
    omega

/-- Witness of C6: three pages that expire at the seconds 30, 10 and 20. -/
theorem fetchMetadata_expiration_min_witness :
    [samplePage 30, samplePage 10, samplePage 20] ≠ [] ∧
    ∃ md bd, fetchMetadata [samplePage 30, samplePage 10, samplePage 20] none =
        Except.ok (md, bd) ∧
      (∃ p ∈ [samplePage 30, samplePage 10, samplePage 20], bd.expiration = p.ExpiryTime) ∧
      (∀ p ∈ [samplePage 30, samplePage 10, samplePage 20],
        p.ExpiryTime.Before bd.expiration = false) ∧
      (∀ pages1 md1 bd1, pages1.Perm [samplePage 30, samplePage 10, samplePage 20] →
        fetchMetadata pages1 none = Except.ok (md1, bd1) → bd1.expiration = bd.expiration) :=
  ⟨by decide, fetchMetadata_expiration_min _ (by decide)⟩

/-! ## The refresh loop -/

theorem refreshStep_ret (sd sd1 : SnapshotBackend)
    (fetched : Except GoError (snapshotMetadata × blockData))
    (h : refreshStep sd fetched = Outcome.ret sd1) :
    sd1.metadata = sd.metadata ∧ sd1.snapshot = sd.snapshot ∧
      ∃ md bd, fetched = Except.ok (md, bd) ∧ md = sd.metadata ∧ sd1.blockData = bd := by
  unfold refreshStep at h
  match fetched, h with
  | Except.error _, h => exact absurd h (by simp)
  | Except.ok (md, bd), h =>
    simp only at h
    split at h
    · exact absurd h (by simp)
    · rename_i hne
      have hsd : sd1 = { sd with blockData := bd } := by
        injection h with h
        exact h.symm
      have hmd : md = sd.metadata := by
        have h1 : sd.metadata.blockSize = md.blockSize := by
          by_contra hc
          exact hne (Or.inl hc)
        have h2 : sd.metadata.volumeSize = md.volumeSize := by
          by_contra hc
          exact hne (Or.inr hc)
        cases md
        cases hm : sd.metadata
        rw [hm] at h1 h2
        simp only at h1 h2
        rw [h1, h2]
      rw [hsd]
      exact ⟨rfl, rfl, md, bd, rfl, hmd, rfl⟩

theorem refreshCycle_ret (sd sd1 : SnapshotBackend) (wake : Wake)
    (h : refreshCycle sd wake = Outcome.ret (some sd1)) : sd1.metadata = sd.metadata := by
  cases wake with
  | done => simp [refreshCycle] at h
  | exit => simp [refreshCycle] at h
  | timer pages err =>
    unfold refreshCycle at h
    simp only at h
    split at h
    · exact absurd h (by simp)
    · rename_i sd2 heq
      have h2 : sd2 = sd1 := by
        injection h with h
        injection h
      rw [← h2]
      exact (refreshStep_ret sd sd2 _ heq).1

/-- C5: a refresh step on a backend `sd` with the freshly fetched metadata
`md` and block data `bd` panics when the volume size or the block size of `md`
differs from the installed one, and otherwise installs `bd` (block tokens and
expiration) and changes nothing else; so every backend state that the refresh
loop reaches from `init` by iterations that do not panic has the volume size
and the block size of `init`. -/
theorem refresh_keeps_sizes :
    (∀ (sd : SnapshotBackend) (md : snapshotMetadata) (bd : blockData),
      md.volumeSize ≠ sd.metadata.volumeSize ∨ md.blockSize ≠ sd.metadata.blockSize →
        refreshStep sd (Except.ok (md, bd)) = Outcome.panics PanicKind.explicit) ∧
    (∀ (sd : SnapshotBackend) (md : snapshotMetadata) (bd : blockData),
      md.volumeSize = sd.metadata.volumeSize → md.blockSize = sd.metadata.blockSize →
        refreshStep sd (Except.ok (md, bd)) =
          Outcome.ret { snapshot := sd.snapshot, metadata := sd.metadata, blockData := bd }) ∧
    (∀ init sd : SnapshotBackend, Reachable init sd →
      sd.metadata.volumeSize = init.metadata.volumeSize ∧
        sd.metadata.blockSize = init.metadata.blockSize) := by
  refine ⟨?_, ?_, ?_⟩
  · intro sd md bd h
    unfold refreshStep
    simp only
    rw [if_pos]
    rcases h with h | h
    · exact Or.inr (fun e => h e.symm)
    · exact Or.inl (fun e => h e.symm)
  · intro sd md bd h1 h2
    unfold refreshStep
    simp only
    rw [if_neg]
    intro h
    rcases h with h | h
    · exact h h2.symm
    · exact h h1.symm
  · intro init sd hr
    induction hr with
    | start => exact ⟨rfl, rfl⟩
    | cycle s s1 wake _ hc ih =>
      have h := refreshCycle_ret s s1 wake hc
      rw [h]
      exact ih

/-- Witness of C5: on the backend of a snapshot of 8 GiB with blocks of 524288
bytes, a refresh that fetches 9 GiB panics, a refresh that fetches the same
sizes installs the fetched block data, and the state reached by a refresh
cycle with one listing page has the sizes of the initial state. -/
theorem refresh_keeps_sizes_witness :
    refreshStep (sampleBackend 8 524288)
        (Except.ok ({ volumeSize := 9, blockSize := 524288 },
          { expiration := sampleTime 5 0, blockTokens := fun _ => none })) =
      Outcome.panics PanicKind.explicit ∧
    refreshStep (sampleBackend 8 524288)
        (Except.ok ({ volumeSize := 8, blockSize := 524288 },
          { expiration := sampleTime 5 0, blockTokens := fun _ => none })) =
      Outcome.ret
        { snapshot := (sampleBackend 8 524288).snapshot
          metadata := (sampleBackend 8 524288).metadata
          blockData := { expiration := sampleTime 5 0, blockTokens := fun _ => none } } ∧
    ∀ sd1, refreshCycle (sampleBackend 8 524288) (Wake.timer [samplePage 7] none) =
        Outcome.ret (some sd1) →
      sd1.metadata.volumeSize = 8 ∧ sd1.metadata.blockSize = 524288 :=
  ⟨refresh_keeps_sizes.1 _ _ _ (Or.inl (by decide)),
    refresh_keeps_sizes.2.1 _ _ _ rfl rfl,
    fun sd1 h => refresh_keeps_sizes.2.2 _ sd1
      (Reachable.cycle _ _ _ Reachable.start h)⟩

/-! ## Integer division by the block size -/

theorem div_mod_of_bounds (bs q r x : Int) (hbs : 0 < bs) (hx : x = r + bs * q) (h0 : 0 ≤ r)
    (h1 : r < bs) : x / bs = q ∧ x % bs = r :=
  (Int.ediv_emod_unique hbs).2 ⟨hx.symm, h0, h1⟩

/-- Within a block the block index stays and the position in the block advances. -/
theorem div_mod_add (bs off j : Int) (hbs : 0 < bs) (hj0 : 0 ≤ j) (hj : off % bs + j < bs) :
    (off + j) / bs = off / bs ∧ (off + j) % bs = off % bs + j := by
  have h := Int.emod_add_ediv off bs
  have h0 := Int.emod_nonneg off (ne_of_gt hbs)
  apply div_mod_of_bounds bs _ _ _ hbs _ (by omega) hj
  omega

/-- The first position of the next block. -/
theorem div_mod_next (bs off : Int) (hbs : 0 < bs) :
    (off + (bs - off % bs)) / bs = off / bs + 1 ∧ (off + (bs - off % bs)) % bs = 0 := by
  have h := Int.emod_add_ediv off bs
  apply div_mod_of_bounds bs _ _ _ hbs _ (le_refl 0) hbs
  rw [mul_add]
  omega

theorem div_mono (bs x y : Int) (hbs : 0 < bs) (h : x ≤ y) : x / bs ≤ y / bs :=
  Int.ediv_le_ediv hbs h

/-! ## `copy` -/

theorem copyAt_length (b : List Byte) (bOff : Nat) (d : List Byte) (hb : bOff ≤ b.length) :
    (copyAt b bOff d).length = b.length := by
  unfold copyAt
  simp only [List.length_append, List.length_take, List.length_drop]
  omega

theorem copyAt_getElem?_lt (b : List Byte) (bOff : Nat) (d : List Byte) (hb : bOff ≤ b.length)
    (i : Nat) (hi : i < bOff) : (copyAt b bOff d)[i]? = b[i]? := by
  unfold copyAt
  rw [List.append_assoc, List.getElem?_append_left (by simp; omega)]
  exact List.getElem?_take_of_lt hi

theorem copyAt_getElem?_ge (b : List Byte) (bOff : Nat) (d : List Byte) (hb : bOff ≤ b.length)
    (i : Nat) (hi : bOff ≤ i) (hi2 : i < bOff + min (b.length - bOff) d.length) :
    (copyAt b bOff d)[i]? = d[i - bOff]? := by
  unfold copyAt
  have hl : (List.take bOff b).length = bOff := by simp; omega
  rw [List.append_assoc, List.getElem?_append_right (by omega), hl,
    List.getElem?_append_left (by simp; omega)]
  exact List.getElem?_take_of_lt (by omega)

/-! ## One iteration of the loop of `ReadAt` -/

theorem ReadAtBody_next {ω : Type} (C : Collaborators ω) (sd : SnapshotBackend)
    (s : LoopState ω) (data : List Byte) (w1 : ω)
    (hbs : 0 < sd.metadata.blockSize) (hoff : 0 ≤ s.offset)
    (hlt : s.offset + ((s.b.length - s.bOff : Nat) : Int) < 2 ^ 63)
    (hb : s.bOff ≤ s.b.length)
    (hr : readBlock C sd s.w (s.offset / sd.metadata.blockSize) = (Outcome.ret (data, none), w1))
    (hskip : s.offset % sd.metadata.blockSize < data.length) :
    ReadAtBody C sd s = Step.next (stepState sd.metadata.blockSize s data w1) := by
  unfold stepState
  have hne : sd.metadata.blockSize ≠ 0 := ne_of_gt hbs
  have hq0 : 0 ≤ s.offset / sd.metadata.blockSize := Int.ediv_nonneg hoff (le_of_lt hbs)
  have hq1 : s.offset / sd.metadata.blockSize ≤ s.offset := Int.ediv_le_self _ hoff
  have hm := Int.emod_add_ediv' s.offset sd.metadata.blockSize
  have hp : 0 ≤ s.offset / sd.metadata.blockSize * sd.metadata.blockSize :=
    Int.mul_nonneg hq0 (le_of_lt hbs)
  have hm0 := Int.emod_nonneg s.offset hne
  have hm1 := Int.emod_lt_of_pos s.offset hbs
  have hdiv : wrap64 (Int.tdiv s.offset sd.metadata.blockSize) =
      s.offset / sd.metadata.blockSize := by
    rw [Int.tdiv_eq_ediv hoff (le_of_lt hbs)]
    exact wrap64_eq _ (by omega) (by omega)
  have hmul : wrap64 (s.offset / sd.metadata.blockSize * sd.metadata.blockSize) =
      s.offset / sd.metadata.blockSize * sd.metadata.blockSize := by
    exact wrap64_eq _ (by omega) (by omega)
  have hskipeq : wrap64 (s.offset - s.offset / sd.metadata.blockSize * sd.metadata.blockSize) =
      s.offset % sd.metadata.blockSize := by
    have e : s.offset - s.offset / sd.metadata.blockSize * sd.metadata.blockSize =
        s.offset % sd.metadata.blockSize := by
      omega
    rw [e]
    exact wrap64_eq _ (by omega) (by omega)
  unfold ReadAtBody
  rw [if_neg hne]
  simp only [hdiv, hr, hmul, hskipeq]
  by_cases h0 : s.offset % sd.metadata.blockSize > 0
  · simp only [if_pos h0, if_neg (not_lt.2 (le_of_lt hskip)), if_neg (not_lt.2 hb)]
    simp only [List.length_drop]
    rw [wrap64_eq _ (by omega) (by omega)]
  · have hz : s.offset % sd.metadata.blockSize = 0 := by omega
    simp only [if_neg h0, if_neg (not_lt.2 hb)]
    rw [wrap64_eq _ (by omega) (by omega)]
    simp [hz]

theorem blockSeq_succ (lo : Int) (n : Nat) : blockSeq lo (n + 1) = lo :: blockSeq (lo + 1) n := by
  unfold blockSeq
  rw [List.range_succ_eq_map]
  simp only [List.map_cons, List.map_map, Nat.cast_zero, add_zero]
  congr 1
  apply List.map_congr_left
  intro k _
  show lo + ((k + 1 : Nat) : Int) = lo + 1 + (k : Int)
  omega

theorem blocksFrom_step (bs off end_ : Int) (n : Nat) (hbs : 0 < bs) (hlt : off < end_)
    (hn : (n : Int) = min (end_ - off) (bs - off % bs)) :
    blocksFrom bs off end_ = off / bs :: blocksFrom bs (off + n) end_ := by
  have hm0 := Int.emod_nonneg off (ne_of_gt hbs)
  have hm1 := Int.emod_lt_of_pos off hbs
  unfold blocksFrom
  rw [if_pos hlt]
  by_cases hc : end_ - off ≤ bs - off % bs
  · have hoff : off + (n : Int) = end_ := by omega
    rw [hoff, if_neg (lt_irrefl _)]
    have h := (div_mod_add bs off (end_ - 1 - off) hbs (by omega) (by omega)).1
    have e : off + (end_ - 1 - off) = end_ - 1 := by omega
    rw [e] at h
    rw [h]
    have e1 : (off / bs - off / bs + 1).toNat = 0 + 1 := by
      rw [sub_self]
      rfl
    rw [e1, blockSeq_succ]
    rfl
  · have hoff : off + (n : Int) = off + (bs - off % bs) := by omega
    have hnext := (div_mod_next bs off hbs).1
    rw [hoff, hnext, if_pos (by omega)]
    have hle : off / bs + 1 ≤ (end_ - 1) / bs := by
      rw [← hnext]
      exact div_mono bs _ _ hbs (by omega)
    have e1 : ((end_ - 1) / bs - off / bs + 1).toNat =
        ((end_ - 1) / bs - (off / bs + 1) + 1).toNat + 1 := by
      omega
    rw [e1, blockSeq_succ]

/-! ## The loop of `ReadAt` when every fetch yields a whole block -/

theorem ReadAtLoop_done {ω : Type} (C : Collaborators ω) (sd : SnapshotBackend)
    (start end_ : Int) (fuel : Nat) (s : LoopState ω) (h : ¬ s.offset < end_) :
    ReadAtLoop C sd start end_ fuel s =
      some (Outcome.ret (wrap64 (s.offset - start), none), s) := by
  unfold ReadAtLoop
  rw [if_neg h]

theorem ReadAtLoop_succ {ω : Type} (C : Collaborators ω) (sd : SnapshotBackend)
    (start end_ : Int) (fuel : Nat) (s : LoopState ω) (h : s.offset < end_) :
    ReadAtLoop C sd start end_ (fuel + 1) s =
      match ReadAtBody C sd s with
      | Step.exit out s1 => some (out, s1)
      | Step.next s1 => ReadAtLoop C sd start end_ fuel s1 := by
  conv => lhs; unfold ReadAtLoop
  rw [if_pos h]

theorem ReadAtLoop_whole_blocks {ω : Type} (C : Collaborators ω) (sd : SnapshotBackend)
    (Inv : ω → Prop) (content : Int → List Byte) (start : Int) (len : Nat)
    (hbs : 0 < sd.metadata.blockSize) (hstart : 0 ≤ start)
    (hend : start + (len : Int) < 2 ^ 63)
    (hfetch : ∀ w blk, Inv w → start / sd.metadata.blockSize ≤ blk →
      blk ≤ (start + (len : Int) - 1) / sd.metadata.blockSize →
      ∃ w1, readBlock C sd w blk = (Outcome.ret (content blk, none), w1) ∧ Inv w1)
    (hlen : ∀ blk, start / sd.metadata.blockSize ≤ blk →
      blk ≤ (start + (len : Int) - 1) / sd.metadata.blockSize →
      ((content blk).length : Int) = sd.metadata.blockSize) :
    ∀ (fuel : Nat) (s : LoopState ω), Inv s.w → s.b.length = len → s.bOff ≤ len →
      s.offset = start + (s.bOff : Int) → len - s.bOff ≤ fuel →
      ∃ s1, ReadAtLoop C sd start (start + (len : Int)) fuel s =
          some (Outcome.ret ((len : Int), none), s1) ∧
        Inv s1.w ∧ s1.b.length = len ∧ s1.bOff = len ∧
        (∀ i, i < s.bOff → s1.b[i]? = s.b[i]?) ∧
        (∀ i, s.bOff ≤ i → i < len →
          s1.b[i]? = byteAt content sd.metadata.blockSize (start + (i : Int))) ∧
        s1.calls = s.calls ++ blocksFrom sd.metadata.blockSize s.offset (start + (len : Int)) := by
  intro fuel
  induction fuel with
  | zero =>
    intro s hI hbl hbo hoff hfuel
    have hdone : ¬ s.offset < start + (len : Int) := by omega
    refine ⟨s, ?_, hI, hbl, by omega, fun i _ => rfl, fun i h1 h2 => by omega, ?_⟩
    · rw [ReadAtLoop_done C sd _ _ _ s hdone, hoff]
      have e : start + (s.bOff : Int) - start = (len : Int) := by omega
      rw [e, wrap64_eq _ (by omega) (by omega)]
    · unfold blocksFrom
      rw [if_neg hdone, List.append_nil]
  | succ f ih =>
    intro s hI hbl hbo hoff hfuel
    by_cases hlt : s.offset < start + (len : Int)
    · have hm0 := Int.emod_nonneg s.offset (ne_of_gt hbs)
      have hm1 := Int.emod_lt_of_pos s.offset hbs
      have hr1 : start / sd.metadata.blockSize ≤ s.offset / sd.metadata.blockSize :=
        div_mono _ _ _ hbs (by omega)
      have hr2 : s.offset / sd.metadata.blockSize ≤
          (start + (len : Int) - 1) / sd.metadata.blockSize :=
        div_mono _ _ _ hbs (by omega)
      obtain ⟨w1, hrb, hI1⟩ := hfetch s.w _ hI hr1 hr2
      have hcl := hlen _ hr1 hr2
      have hbody := ReadAtBody_next C sd s _ w1 hbs (by omega) (by omega) (by omega) hrb
        (by omega)
      rw [ReadAtLoop_succ C sd _ _ f s hlt, hbody]
      simp only
      obtain ⟨s1, hrun, hI2, hbl2, hbo2, hpre, hpost, hcalls⟩ :=
        ih (stepState sd.metadata.blockSize s (content (s.offset / sd.metadata.blockSize)) w1) hI1
          (by unfold stepState; simp only; rw [copyAt_length _ _ _ (by omega)]; exact hbl)
          (by unfold stepState; simp only; omega) (by unfold stepState; simp only; omega)
          (by unfold stepState; simp only; omega)
      unfold stepState at hpre hpost hcalls
      simp only at hpre hpost hcalls
      refine ⟨s1, hrun, hI2, hbl2, hbo2, ?_, ?_, ?_⟩
      · intro i hi
        rw [hpre i (by omega)]
        exact copyAt_getElem?_lt _ _ _ (by omega) i hi
      · intro i hi1 hi2
        by_cases hi3 : i < s.bOff + min (s.b.length - s.bOff)
            ((content (s.offset / sd.metadata.blockSize)).length -
              (s.offset % sd.metadata.blockSize).toNat)
        · rw [hpre i hi3]
          rw [copyAt_getElem?_ge _ _ _ (by omega) i hi1
            (by simp only [List.length_drop]; exact hi3), List.getElem?_drop]
          have hd := div_mod_add sd.metadata.blockSize s.offset ((i - s.bOff : Nat) : Int) hbs
            (by omega) (by omega)
          have e : start + (i : Int) = s.offset + ((i - s.bOff : Nat) : Int) := by omega
          unfold byteAt
          rw [e, hd.1, hd.2]
          congr 1
          omega
        · exact hpost i (by omega) hi2
      · rw [hcalls]
        rw [List.append_assoc]
        congr 1
        rw [blocksFrom_step sd.metadata.blockSize s.offset (start + (len : Int))
          (min (s.b.length - s.bOff) ((content (s.offset / sd.metadata.blockSize)).length -
            (s.offset % sd.metadata.blockSize).toNat)) hbs hlt (by omega)]
        rfl
    · have hdone := hlt
      refine ⟨s, ?_, hI, hbl, by omega, fun i _ => rfl, fun i h1 h2 => by omega, ?_⟩
      · rw [ReadAtLoop_done C sd _ _ _ s hdone, hoff]
        have e : start + (s.bOff : Int) - start = (len : Int) := by omega
        rw [e, wrap64_eq _ (by omega) (by omega)]
      · unfold blocksFrom
        rw [if_neg hdone, List.append_nil]

/-! ## `ReadAt`: the bytes read -/

theorem readBlock_sampleRemote (bs : Nat) (sd : SnapshotBackend) (w : Unit) (blk : Int) :
    readBlock (sampleRemote bs []) sd w blk =
      (Outcome.ret (List.replicate bs (Fin.ofNat blk.toNat), none), ()) := by
  simp [readBlock, readBlockFn, singleflightDo, sampleRemote]

/-- C1, the claim as stated fails: with blocks of 524288 bytes whose fetches
all succeed, `ReadAt` at the offset `2^63 - 1` with a buffer of one byte
computes `end = offset + 1`, which wraps around to `-2^63`; the loop is not
entered and `ReadAt` returns `(0, nil)`, not `(1, nil)`. -/
theorem ReadAt_offset_overflow_counterexample :
    (∀ blk : Int, readBlock (sampleRemote 524288 []) (sampleBackend 1 524288) () blk =
        (Outcome.ret (List.replicate 524288 (Fin.ofNat blk.toNat), none), ()) ∧
      (List.replicate 524288 (Fin.ofNat blk.toNat : Byte)).length = 524288) ∧
    ∀ fuel : Nat,
      (ReadAt (sampleRemote 524288 []) (sampleBackend 1 524288) fuel () [0]
        (2 ^ 63 - 1)).map Prod.fst = some (Outcome.ret (0, none)) ∧
      (ReadAt (sampleRemote 524288 []) (sampleBackend 1 524288) fuel () [0]
        (2 ^ 63 - 1)).map Prod.fst ≠ some (Outcome.ret ((([0] : List Byte).length : Int), none)) := by
  refine ⟨fun blk => ⟨?_, List.length_replicate _ _⟩, fun fuel => ?_⟩
  · exact readBlock_sampleRemote 524288 _ () blk
  · have h : ReadAt (sampleRemote 524288 []) (sampleBackend 1 524288) fuel () [0]
        (2 ^ 63 - 1) = some (Outcome.ret (0, none),
          { w := (), b := [0], bOff := 0, offset := 2 ^ 63 - 1, calls := [] }) := by
      unfold ReadAt
      rw [ReadAtLoop_done _ _ _ _ _ _ (by decide)]
      rfl
    rw [h]
    exact ⟨rfl, by decide⟩

/-- C1, amended: for every `blockSize > 0`, every `offset ≥ 0` and every
buffer `b` with `offset + len(b) < 2^63`, if every `readBlock` of a block in
the range succeeds with the `blockSize` bytes of that block, then `ReadAt`
returns `(len(b), nil)` (within `len(b)` iterations) and leaves in `b[i]` the
byte `(offset+i) mod blockSize` of block `(offset+i) div blockSize`, for every
`i < len(b)`, whatever the alignment of `offset` and `len(b)`. -/
theorem ReadAt_whole_blocks {ω : Type} (C : Collaborators ω) (sd : SnapshotBackend)
    (Inv : ω → Prop) (content : Int → List Byte) (w : ω) (b : List Byte) (offset : Int)
    (hbs : 0 < sd.metadata.blockSize) (hoff : 0 ≤ offset)
    (hend : offset + (b.length : Int) < 2 ^ 63) (hI : Inv w)
    (hfetch : ∀ w blk, Inv w → offset / sd.metadata.blockSize ≤ blk →
      blk ≤ (offset + (b.length : Int) - 1) / sd.metadata.blockSize →
      ∃ w1, readBlock C sd w blk = (Outcome.ret (content blk, none), w1) ∧ Inv w1 ∧
        ((content blk).length : Int) = sd.metadata.blockSize) :
    ∀ fuel : Nat, b.length ≤ fuel →
      ∃ s1, ReadAt C sd fuel w b offset = some (Outcome.ret ((b.length : Int), none), s1) ∧
        s1.b.length = b.length ∧
        ∀ i : Nat, i < b.length →
          s1.b[i]? = (content ((offset + (i : Int)) / sd.metadata.blockSize))[
            ((offset + (i : Int)) % sd.metadata.blockSize).toNat]? := by
  intro fuel hfuel
  obtain ⟨s1, hrun, _, hlen, _, _, hbytes, _⟩ :=
    ReadAtLoop_whole_blocks C sd Inv content offset b.length hbs hoff hend
      (fun w blk hw h1 h2 => by
        obtain ⟨w1, hr, hi, _⟩ := hfetch w blk hw h1 h2
        exact ⟨w1, hr, hi⟩)
      (fun blk h1 h2 => by
        obtain ⟨w1, _, _, hl⟩ := hfetch w blk hI h1 h2
        exact hl)
      fuel { w := w, b := b, bOff := 0, offset := offset, calls := [] } hI rfl
      (Nat.zero_le _) (by simp) (by simp only; omega)
  refine ⟨s1, ?_, hlen, fun i hi => hbytes i (Nat.zero_le _) hi⟩
  unfold ReadAt
  rw [wrap64_eq _ (by omega) (by omega)]
  exact hrun

theorem readBlock_cachingRemote (bs : Nat) (sd : SnapshotBackend) (w : List (Int × List Byte))
    (blk : Int) (hw : cacheSound bs w) :
    ∃ w1, readBlock (cachingRemote bs) sd w blk =
        (Outcome.ret (List.replicate bs (Fin.ofNat blk.toNat), none), w1) ∧ cacheSound bs w1 := by
  unfold readBlock singleflightDo readBlockFn cachingRemote
  simp only
  cases h : w.lookup blk with
  | some v =>
    refine ⟨w, ?_, hw⟩
    rw [hw blk v h]
  | none =>
    refine ⟨(blk, List.replicate bs (Fin.ofNat blk.toNat)) :: w, rfl, ?_⟩
    intro k d hk
    rw [List.lookup_cons] at hk
    by_cases e : k = blk
    · rw [e] at hk ⊢
      simp only [beq_self_eq_true, Option.some.injEq] at hk
      exact hk.symm
    · have e2 : (k == blk) = false := by simpa using e
      rw [e2] at hk
      exact hw k d hk

/-- Witness of C1 amended: blocks of 524288 bytes behind a cache that is empty
at first, a read of 1024 bytes at the offset `524288 - 500`. -/
theorem ReadAt_whole_blocks_witness :
    ∃ s1, ReadAt (cachingRemote 524288) (sampleBackend 1 524288) 1024 []
        (List.replicate 1024 0) 523788 =
        some (Outcome.ret (((List.replicate 1024 (0 : Byte)).length : Int), none), s1) ∧
      s1.b.length = (List.replicate 1024 (0 : Byte)).length ∧
      ∀ i : Nat, i < (List.replicate 1024 (0 : Byte)).length →
        s1.b[i]? = (List.replicate 524288
          (Fin.ofNat ((523788 + (i : Int)) / 524288).toNat : Byte))[
            ((523788 + (i : Int)) % 524288).toNat]? :=
  ReadAt_whole_blocks (cachingRemote 524288) (sampleBackend 1 524288) (cacheSound 524288)
    (fun blk => List.replicate 524288 (Fin.ofNat blk.toNat)) [] (List.replicate 1024 0) 523788
    (by decide) (by decide) (by rw [List.length_replicate]; decide)
    (fun k d h => by simp at h)
    (fun w blk hw _ _ => by
      obtain ⟨w1, h1, h2⟩ := readBlock_cachingRemote 524288 (sampleBackend 1 524288) w blk hw
      exact ⟨w1, h1, h2, by rw [List.length_replicate]; rfl⟩)
    1024 (by rw [List.length_replicate])

/-! ## `ReadAt`: the blocks requested -/

/-- C9, the claim as stated fails: with blocks of 524288 bytes whose fetches
all succeed, `ReadAt` at the offset `2^63 - 1` with a buffer of one byte
requests no block at all (`end` wraps around to `-2^63`), where the claim
has the one request of block `(2^63 - 1) div 524288`. -/
theorem ReadAt_calls_overflow_counterexample :
    (∀ blk : Int, readBlock (sampleRemote 524288 []) (sampleBackend 1 524288) () blk =
        (Outcome.ret (List.replicate 524288 (Fin.ofNat blk.toNat), none), ()) ∧
      (List.replicate 524288 (Fin.ofNat blk.toNat : Byte)).length = 524288) ∧
    ∀ fuel : Nat,
      (ReadAt (sampleRemote 524288 []) (sampleBackend 1 524288) fuel () [0]
        (2 ^ 63 - 1)).map (fun r => r.2.calls) = some [] ∧
      (ReadAt (sampleRemote 524288 []) (sampleBackend 1 524288) fuel () [0]
        (2 ^ 63 - 1)).map (fun r => r.2.calls) ≠ some [(2 ^ 63 - 1) / 524288] := by
  refine ⟨fun blk => ⟨?_, List.length_replicate _ _⟩, fun fuel => ?_⟩
  · exact readBlock_sampleRemote 524288 _ () blk
  · have h : ReadAt (sampleRemote 524288 []) (sampleBackend 1 524288) fuel () [0]
        (2 ^ 63 - 1) = some (Outcome.ret (0, none),
          { w := (), b := [0], bOff := 0, offset := 2 ^ 63 - 1, calls := [] }) := by
      unfold ReadAt
      rw [ReadAtLoop_done _ _ _ _ _ _ (by decide)]
      rfl
    rw [h]
    exact ⟨rfl, by decide⟩

/-- C9, amended: for every `blockSize > 0`, `offset ≥ 0` and buffer of length
`L` with `offset + L < 2^63`, if every `readBlock` of a block in the range
succeeds with exactly `blockSize` bytes, then the block indices that `ReadAt`
passes to `readBlock` are, in call order, `offset div blockSize`,
`offset div blockSize + 1`, ..., `(offset+L-1) div blockSize`: strictly
increasing, each one once; for `L = 0` there is no call. -/
theorem ReadAt_block_sequence {ω : Type} (C : Collaborators ω) (sd : SnapshotBackend)
    (Inv : ω → Prop) (content : Int → List Byte) (w : ω) (b : List Byte) (offset : Int)
    (hbs : 0 < sd.metadata.blockSize) (hoff : 0 ≤ offset)
    (hend : offset + (b.length : Int) < 2 ^ 63) (hI : Inv w)
    (hfetch : ∀ w blk, Inv w → offset / sd.metadata.blockSize ≤ blk →
      blk ≤ (offset + (b.length : Int) - 1) / sd.metadata.blockSize →
      ∃ w1, readBlock C sd w blk = (Outcome.ret (content blk, none), w1) ∧ Inv w1 ∧
        ((content blk).length : Int) = sd.metadata.blockSize) :
    ∀ fuel : Nat, b.length ≤ fuel →
      ∃ s1, ReadAt C sd fuel w b offset = some (Outcome.ret ((b.length : Int), none), s1) ∧
        s1.calls =
          (if b.length = 0 then []
            else (List.range
              ((offset + (b.length : Int) - 1) / sd.metadata.blockSize -
                offset / sd.metadata.blockSize + 1).toNat).map
              (fun (k : Nat) => offset / sd.metadata.blockSize + (k : Int))) ∧
        s1.calls.Pairwise (fun x y => x < y) := by
  intro fuel hfuel
  obtain ⟨s1, hrun, _, _, _, _, _, hcalls⟩ :=
    ReadAtLoop_whole_blocks C sd Inv content offset b.length hbs hoff hend
      (fun w blk hw h1 h2 => by
        obtain ⟨w1, hr, hi, _⟩ := hfetch w blk hw h1 h2
        exact ⟨w1, hr, hi⟩)
      (fun blk h1 h2 => by
        obtain ⟨w1, _, _, hl⟩ := hfetch w blk hI h1 h2
        exact hl)
      fuel { w := w, b := b, bOff := 0, offset := offset, calls := [] } hI rfl
      (Nat.zero_le _) (by simp) (by simp only; omega)
  have hc : s1.calls =
      (if b.length = 0 then []
        else (List.range
          ((offset + (b.length : Int) - 1) / sd.metadata.blockSize -
            offset / sd.metadata.blockSize + 1).toNat).map
          (fun (k : Nat) => offset / sd.metadata.blockSize + (k : Int))) := by
    rw [hcalls]
    simp only [List.nil_append]
    unfold blocksFrom blockSeq
    by_cases h0 : b.length = 0
    · rw [if_pos h0, if_neg (by omega)]
    · rw [if_neg h0, if_pos (by omega)]
  refine ⟨s1, ?_, hc, ?_⟩
  · unfold ReadAt
    rw [wrap64_eq _ (by omega) (by omega)]
    exact hrun
  · rw [hc]
    split
    · exact List.Pairwise.nil
    · rw [List.pairwise_map]
      exact List.Pairwise.imp (fun h => by omega) (List.pairwise_lt_range _)

/-- Witness of C9 amended: with blocks of 524288 bytes, a read of 1024 bytes at
the offset `524288 - 500` requests block 0, then block 1. -/
theorem ReadAt_block_sequence_witness :
    ∃ s1, ReadAt (sampleRemote 524288 []) (sampleBackend 1 524288) 1024 ()
        (List.replicate 1024 0) 523788 = some (Outcome.ret (1024, none), s1) ∧
      s1.calls = [0, 1] := by
  obtain ⟨s1, h1, h2, _⟩ :=
    ReadAt_block_sequence (sampleRemote 524288 []) (sampleBackend 1 524288) (fun _ => True)
      (fun blk => List.replicate 524288 (Fin.ofNat blk.toNat)) () (List.replicate 1024 0) 523788
      (by decide) (by decide) (by rw [List.length_replicate]; decide) trivial
      (fun w blk _ _ _ => ⟨(), readBlock_sampleRemote 524288 _ w blk, trivial,
        by rw [List.length_replicate]; rfl⟩)
      1024 (by rw [List.length_replicate])
  rw [List.length_replicate] at h1 h2
  refine ⟨s1, h1, ?_⟩
  rw [h2]
  decide

/-! ## `readBlock` and errors -/

theorem readBlock_cases {ω : Type} (C : Collaborators ω) (sd : SnapshotBackend) (w : ω)
    (blk : Int) :
    (∃ w1, readBlock C sd w blk = (Outcome.panics PanicKind.interfaceConversion, w1)) ∨
      ∃ data w1, readBlock C sd w blk = (Outcome.ret (data, none), w1) := by
  unfold readBlock singleflightDo readBlockFn
  rcases hc : C.cacheGet w blk with ⟨v, w1⟩
  cases v with
  | some v => exact Or.inr ⟨v, w1, rfl⟩
  | none =>
    simp only
    rcases hg : C.getSnapshotBlock w1 sd.snapshot blk (sd.blockData.blockTokens blk) with ⟨r, w2⟩
    cases r with
    | error e => exact Or.inl ⟨w2, rfl⟩
    | ok out =>
      cases out with
      | error e => exact Or.inl ⟨w2, rfl⟩
      | ok data => exact Or.inr ⟨data, _, rfl⟩

/-- An error of the fetch never comes back from `readBlock`: it panics. -/
theorem readBlock_fetch_error {ω : Type} (C : Collaborators ω) (sd : SnapshotBackend) (w : ω)
    (blk : Int) (e : GoError) (w1 : ω) (h : readBlockFn C sd w blk = ((none, some e), w1)) :
    readBlock C sd w blk = (Outcome.panics PanicKind.interfaceConversion, w1) := by
  unfold readBlock singleflightDo
  rw [h]

theorem ReadAtBody_panics {ω : Type} (C : Collaborators ω) (sd : SnapshotBackend)
    (s : LoopState ω) (k : PanicKind) (w1 : ω)
    (hbs : 0 < sd.metadata.blockSize) (hoff : 0 ≤ s.offset) (hlt : s.offset < 2 ^ 63)
    (hr : readBlock C sd s.w (s.offset / sd.metadata.blockSize) = (Outcome.panics k, w1)) :
    ReadAtBody C sd s = Step.exit (Outcome.panics k)
      { s with w := w1, calls := s.calls ++ [s.offset / sd.metadata.blockSize] } := by
  have hq0 : 0 ≤ s.offset / sd.metadata.blockSize := Int.ediv_nonneg hoff (le_of_lt hbs)
  have hq1 : s.offset / sd.metadata.blockSize ≤ s.offset := Int.ediv_le_self _ hoff
  have hdiv : wrap64 (Int.tdiv s.offset sd.metadata.blockSize) =
      s.offset / sd.metadata.blockSize := by
    rw [Int.tdiv_eq_ediv hoff (le_of_lt hbs)]
    exact wrap64_eq _ (by omega) (by omega)
  unfold ReadAtBody
  rw [if_neg (ne_of_gt hbs)]
  simp only [hdiv, hr]

/-! ## The loop of `ReadAt` stops -/

theorem ReadAtLoop_stops {ω : Type} (C : Collaborators ω) (sd : SnapshotBackend)
    (Inv : ω → Prop) (start : Int) (len : Nat)
    (hbs : 0 < sd.metadata.blockSize) (hstart : 0 ≤ start)
    (hend : start + (len : Int) < 2 ^ 63)
    (hfetch : ∀ w off data w1, Inv w → start ≤ off → off < start + (len : Int) →
      readBlock C sd w (off / sd.metadata.blockSize) = (Outcome.ret (data, none), w1) →
      off % sd.metadata.blockSize < (data.length : Int) ∧ Inv w1) :
    ∀ (fuel : Nat) (s : LoopState ω), Inv s.w → s.b.length = len → s.bOff ≤ len →
      s.offset = start + (s.bOff : Int) → len - s.bOff ≤ fuel →
      ∃ out s1, ReadAtLoop C sd start (start + (len : Int)) fuel s = some (out, s1) ∧
        s1.b.length = len ∧
        ((out = Outcome.ret ((len : Int), none) ∧ s1.bOff = len) ∨
          out = Outcome.panics PanicKind.interfaceConversion) := by
  intro fuel
  induction fuel with
  | zero =>
    intro s hI hbl hbo hoff hfuel
    have hdone : ¬ s.offset < start + (len : Int) := by omega
    refine ⟨_, s, ReadAtLoop_done C sd _ _ _ s hdone, hbl, Or.inl ⟨?_, by omega⟩⟩
    have e : s.offset - start = (len : Int) := by omega
    rw [e, wrap64_eq _ (by omega) (by omega)]
  | succ f ih =>
    intro s hI hbl hbo hoff hfuel
    by_cases hlt : s.offset < start + (len : Int)
    · rw [ReadAtLoop_succ C sd _ _ f s hlt]
      rcases readBlock_cases C sd s.w (s.offset / sd.metadata.blockSize) with
        ⟨w1, hr⟩ | ⟨data, w1, hr⟩
      · rw [ReadAtBody_panics C sd s _ w1 hbs (by omega) (by omega) hr]
        exact ⟨_, _, rfl, hbl, Or.inr rfl⟩
      · obtain ⟨hskip, hI1⟩ := hfetch s.w s.offset data w1 hI (by omega) hlt hr
        have hm0 := Int.emod_nonneg s.offset (ne_of_gt hbs)
        rw [ReadAtBody_next C sd s data w1 hbs (by omega) (by omega) (by omega) hr hskip]
        simp only
        exact ih (stepState sd.metadata.blockSize s data w1) hI1
          (by unfold stepState; simp only; rw [copyAt_length _ _ _ (by omega)]; exact hbl)
          (by unfold stepState; simp only; omega) (by unfold stepState; simp only; omega)
          (by unfold stepState; simp only; omega)
    · refine ⟨_, s, ReadAtLoop_done C sd _ _ _ s hlt, hbl, Or.inl ⟨?_, by omega⟩⟩
      have e : s.offset - start = (len : Int) := by omega
      rw [e, wrap64_eq _ (by omega) (by omega)]

/-- C10, the claim as stated fails. With `blockSize = 4`: when the fetched
block is empty (length 0 ≤ 4) the loop never stops, each iteration copying
zero bytes; when the fetched block has 1 byte and the read starts at offset 2,
`data[skip:]` with `skip = 2` is an out-of-range slice. -/
theorem ReadAt_short_block_counterexample :
    (∀ fuel : Nat, ReadAt (sampleRemote 0 []) (sampleBackend 1 4) fuel () [0] 0 = none) ∧
    (ReadAt (sampleRemote 1 []) (sampleBackend 1 4) 1 () [0] 2).map Prod.fst =
      some (Outcome.panics PanicKind.sliceBounds) := by
  constructor
  · intro fuel
    have h : ∀ (fuel : Nat) (calls : List Int),
        ReadAtLoop (sampleRemote 0 []) (sampleBackend 1 4) 0 1 fuel
          { w := (), b := [0], bOff := 0, offset := 0, calls := calls } = none := by
      intro fuel
      induction fuel with
      | zero =>
        intro calls
        rfl
      | succ f ih =>
        intro calls
        have hb : ReadAtBody (sampleRemote 0 []) (sampleBackend 1 4)
            { w := (), b := [0], bOff := 0, offset := 0, calls := calls } =
            Step.next { w := (), b := [0], bOff := 0, offset := 0, calls := calls ++ [0] } := by
          simp [ReadAtBody, readBlock_sampleRemote, sampleBackend, wrap64, copyAt]
        rw [ReadAtLoop_succ _ _ _ _ _ _ (Int.zero_lt_one), hb]
        exact ih (calls ++ [0])
    exact h fuel []
  · decide

/-- C10, amended: for every `blockSize > 0`, `offset ≥ 0` and buffer `b` with
`offset + len(b) < 2^63`, if every block that a fetch returns is longer than
the position in the block at which the read goes on (as every block of
exactly `blockSize` bytes is), then the loop of `ReadAt` stops within `len(b)`
iterations, either with the destination filled and `(len(b), nil)` returned
or at a block fetch that failed, and never with an out-of-range slice; each
iteration after which the loop goes on advances the position and the count of
bytes copied by the same amount, at least one byte. -/
theorem ReadAt_stops {ω : Type} (C : Collaborators ω) (sd : SnapshotBackend)
    (Inv : ω → Prop) (w : ω) (b : List Byte) (offset : Int)
    (hbs : 0 < sd.metadata.blockSize) (hoff : 0 ≤ offset)
    (hend : offset + (b.length : Int) < 2 ^ 63) (hI : Inv w)
    (hfetch : ∀ w off data w1, Inv w → offset ≤ off → off < offset + (b.length : Int) →
      readBlock C sd w (off / sd.metadata.blockSize) = (Outcome.ret (data, none), w1) →
      off % sd.metadata.blockSize < (data.length : Int) ∧ Inv w1) :
    (∀ fuel : Nat, b.length ≤ fuel →
      ∃ out s1, ReadAt C sd fuel w b offset = some (out, s1) ∧
        out ≠ Outcome.panics PanicKind.sliceBounds ∧
        ((out = Outcome.ret ((b.length : Int), none) ∧ s1.bOff = b.length ∧
            s1.b.length = b.length) ∨
          out = Outcome.panics PanicKind.interfaceConversion)) ∧
    (∀ s s2 : LoopState ω, Inv s.w → s.b.length = b.length → s.bOff < b.length →
      s.offset = offset + (s.bOff : Int) → ReadAtBody C sd s = Step.next s2 →
      s.offset + 1 ≤ s2.offset ∧ s2.offset - s.offset = (s2.bOff : Int) - (s.bOff : Int)) := by
  constructor
  · intro fuel hfuel
    obtain ⟨out, s1, hrun, hbl, hout⟩ :=
      ReadAtLoop_stops C sd Inv offset b.length hbs hoff hend hfetch fuel
        { w := w, b := b, bOff := 0, offset := offset, calls := [] } hI rfl
        (Nat.zero_le _) (by simp) (by simp only; omega)
    refine ⟨out, s1, ?_, ?_, ?_⟩
    · unfold ReadAt
      rw [wrap64_eq _ (by omega) (by omega)]
      exact hrun
    · rcases hout with ⟨h, _⟩ | h <;> rw [h] <;> simp
    · rcases hout with ⟨h1, h2⟩ | h
      · exact Or.inl ⟨h1, h2, hbl⟩
      · exact Or.inr h
  · intro s s2 hI1 hbl hbo hso hbody
    rcases readBlock_cases C sd s.w (s.offset / sd.metadata.blockSize) with
      ⟨w1, hr⟩ | ⟨data, w1, hr⟩
    · rw [ReadAtBody_panics C sd s _ w1 hbs (by omega) (by omega) hr] at hbody
      exact absurd hbody (by simp)
    · obtain ⟨hskip, _⟩ := hfetch s.w s.offset data w1 hI1 (by omega) (by omega) hr
      have hm0 := Int.emod_nonneg s.offset (ne_of_gt hbs)
      rw [ReadAtBody_next C sd s data w1 hbs (by omega) (by omega) (by omega) hr hskip] at hbody
      have hs2 : s2 = stepState sd.metadata.blockSize s data w1 := by
        injection hbody with h
        exact h.symm
      rw [hs2]
      unfold stepState
      simp only
      omega

theorem readBlock_sampleRemote_length (bs : Nat) (bad : List Int) (sd : SnapshotBackend)
    (w : Unit) (blk : Int) (data : List Byte) (w1 : Unit)
    (h : readBlock (sampleRemote bs bad) sd w blk = (Outcome.ret (data, none), w1)) :
    data.length = bs := by
  by_cases hb : blk ∈ bad
  · simp [readBlock, readBlockFn, singleflightDo, sampleRemote, hb] at h
  · simp [readBlock, readBlockFn, singleflightDo, sampleRemote, hb] at h
    rw [← h]
    exact List.length_replicate _ _

/-- Witness of C10 amended: blocks of 4 bytes, the fetch of block 1 fails, a
read of 6 bytes at offset 2. -/
theorem ReadAt_stops_witness :
    (∃ out s1, ReadAt (sampleRemote 4 [1]) (sampleBackend 1 4) 6 ()
        (List.replicate 6 0) 2 = some (out, s1) ∧
      out ≠ Outcome.panics PanicKind.sliceBounds ∧
      ((out = Outcome.ret (((List.replicate 6 (0 : Byte)).length : Int), none) ∧
          s1.bOff = (List.replicate 6 (0 : Byte)).length ∧
          s1.b.length = (List.replicate 6 (0 : Byte)).length) ∨
        out = Outcome.panics PanicKind.interfaceConversion)) ∧
    ∀ s2 : LoopState Unit,
      ReadAtBody (sampleRemote 4 [1]) (sampleBackend 1 4)
        { w := (), b := List.replicate 6 0, bOff := 0, offset := 2, calls := [] } =
          Step.next s2 →
      (2 : Int) + 1 ≤ s2.offset ∧ s2.offset - 2 = (s2.bOff : Int) - ((0 : Nat) : Int) :=
  have h := ReadAt_stops (sampleRemote 4 [1]) (sampleBackend 1 4) (fun _ => True) ()
    (List.replicate 6 0) 2 (by decide) (by decide) (by decide) trivial
    (fun w off data w1 _ _ _ hr => by
      have hl := readBlock_sampleRemote_length 4 [1] _ w _ data w1 hr
      have hm := Int.emod_lt_of_pos off (show (0 : Int) < 4 by decide)
      rw [hl]
      exact ⟨hm, trivial⟩)
  ⟨h.1 6 (by decide), fun s2 hb => h.2 _ s2 trivial rfl (by decide) rfl hb⟩

/-! ## `ReadAt` when a fetch fails -/

theorem ReadAtBody_exit_no_error {ω : Type} (C : Collaborators ω) (sd : SnapshotBackend)
    (s s1 : LoopState ω) (out : Outcome (Int × Option GoError))
    (h : ReadAtBody C sd s = Step.exit out s1) : ∀ n e, out ≠ Outcome.ret (n, some e) := by
  intro n e hne
  rw [hne] at h
  unfold ReadAtBody at h
  split at h
  · exact absurd h (by simp)
  · rcases readBlock_cases C sd s.w (wrap64 (Int.tdiv s.offset sd.metadata.blockSize)) with
      ⟨w1, hr⟩ | ⟨data, w1, hr⟩
    · simp only [hr] at h
      exact absurd h (by simp)
    · simp only [hr] at h
      split at h
      · exact absurd h (by simp)
      · split at h
        · exact absurd h (by simp)
        · exact absurd h (by simp)

/-- The branch `return bOff, err` of `ReadAt` is never taken: whatever the
cache and the remote service do, `ReadAt` does not return an error. -/
theorem ReadAtLoop_no_error {ω : Type} (C : Collaborators ω) (sd : SnapshotBackend)
    (start end_ : Int) :
    ∀ (fuel : Nat) (s s1 : LoopState ω) (out : Outcome (Int × Option GoError)),
      ReadAtLoop C sd start end_ fuel s = some (out, s1) →
      ∀ n e, out ≠ Outcome.ret (n, some e) := by
  intro fuel
  induction fuel with
  | zero =>
    intro s s1 out h n e hne
    unfold ReadAtLoop at h
    split at h
    · exact absurd h (by simp)
    · rw [hne] at h
      simp at h
  | succ f ih =>
    intro s s1 out h n e hne
    by_cases hlt : s.offset < end_
    · rw [ReadAtLoop_succ C sd _ _ f s hlt] at h
      cases hb : ReadAtBody C sd s with
      | exit out2 s2 =>
        rw [hb] at h
        simp only [Option.some.injEq, Prod.mk.injEq] at h
        exact ReadAtBody_exit_no_error C sd s s2 out2 hb n e (h.1.trans hne)
      | next s2 =>
        rw [hb] at h
        exact ih s2 s1 out h n e hne
    · rw [ReadAtLoop_done C sd _ _ _ s hlt, hne] at h
      simp at h

/-- C2, the code at a failing input: blocks of 4 bytes, a read of 12 bytes at
offset 0 (blocks 0, 1 and 2), the fetch of block 1 fails. `ReadAt` does not
return `(4, err)`: after the 4 bytes of block 0 are copied and block 1 is
requested, `readBlock` panics on `data.([]byte)`, the closure having returned
the nil interface with the error. And in general, whatever the cache and the
remote service do, no run of `ReadAt` returns an error. -/
theorem ReadAt_fetch_error_panics :
    ((ReadAt (sampleRemote 4 [1]) (sampleBackend 1 4) 12 () (List.replicate 12 0) 0).map
        (fun r => (r.1, r.2.bOff, r.2.calls)) =
      some (Outcome.panics PanicKind.interfaceConversion, 4, [0, 1]) ∧
    readBlockFn (sampleRemote 4 [1]) (sampleBackend 1 4) () 1 =
      ((none, some (GoError.other "RequestTimeout")), ())) ∧
    ∀ (ω : Type) (C : Collaborators ω) (sd : SnapshotBackend) (fuel : Nat) (w : ω)
      (b : List Byte) (offset : Int) (out : Outcome (Int × Option GoError)) (s1 : LoopState ω),
      ReadAt C sd fuel w b offset = some (out, s1) → ∀ n e, out ≠ Outcome.ret (n, some e) :=
  ⟨by decide, fun _ C sd fuel _ _ _ out s1 h =>
    ReadAtLoop_no_error C sd _ _ fuel _ s1 out h⟩

end Ebuse
